import Mathlib

/-!
Verification of the log-structured key-value store in `kv/src/lib.rs`.

The embedding works over `Str := List Char` (the UTF-8 text the Rust code
manipulates).  Pure functions of the source become Lean functions; the
store's mutable backing storage becomes explicit state passing.  The value
type `T` of `Store<T>` stays a type parameter, and the serde_json
capability (`Serialize`/`Deserialize` of `Option<T>`) is modelled as a
`Codec` record of an encoder and a decoder, both fallible with a textual
error message, exactly as `serde_json::to_string` / `serde_json::from_str`
are.
-/

/-- Strings as character lists (the byte/char content of the log). -/
abbrev Str := List Char

/-- `enum Error` from `kv/src/lib.rs` (lines 12-19): a `Read` failure and a
`Write` failure, each carrying the formatted detail string. -/
inductive Error where
  | read : Str → Error
  | write : Str → Error
deriving DecidableEq

/-- The `#[error(...)]` display strings of `Error`, exactly as written in the
source: the `Read` variant displays `"Unable to write record: {0}"` and the
`Write` variant displays `"Unable to read record: {0}"`. -/
def Error.display : Error → Str
  | .read m => "Unable to write record: ".data ++ m
  | .write m => "Unable to read record: ".data ++ m

/-- The serde_json capability of the value type `T`: `enc` models
`serde_json::to_string(&opt)` on an `Option<T>` and `dec` models
`serde_json::from_str::<Option<T>>`; both return an error message on
failure. -/
structure Codec (T : Type) where
  enc : Option T → Except Str Str
  dec : Str → Except Str (Option T)

/-- Decimal digits of `n`, most significant first (fuel-driven so it
reduces definitionally). -/
def natDigitsAux : Nat → Nat → Str
  | 0, _ => []
  | _ + 1, 0 => []
  | f + 1, n => natDigitsAux f (n / 10) ++ [Char.ofNat (48 + n % 10)]

/-- Decimal rendering of a natural number, as Rust's `Display` for
integers produces it. -/
def natToStr (n : Nat) : Str :=
  if n = 0 then ['0'] else natDigitsAux (n + 1) n

/-- The message built by the local `line_error` helper inside
`search_lines`: `"Invalid data as line {line_number}: `{line}`"`. -/
def lineErrorMsg (n : Nat) (line : Str) : Str :=
  "Invalid data as line ".data ++ natToStr n ++ ": `".data ++ line ++ "`".data

/-- ASCII whitespace recognized when trimming (the characters relevant to
this log format; Rust's `str::trim` strips Unicode whitespace, a superset
agreeing on all characters that occur here). -/
def isWs (c : Char) : Bool :=
  c = ' ' || c = '\t' || c = '\n' || c = '\r'

/-- Strip trailing whitespace. -/
def trimRight (s : Str) : Str :=
  (s.reverse.dropWhile isWs).reverse

/-- Strip leading whitespace. -/
def trimLeft (s : Str) : Str :=
  s.dropWhile isWs

/-- Model of Rust's `str::trim`: strip whitespace from both ends. -/
def trim (s : Str) : Str :=
  trimLeft (trimRight s)

/-- Model of Rust's `line.split(',')` collected into a list: the maximal
comma-free segments of `s`, in order.  Like Rust's `split`, the result is
never empty (splitting the empty string yields one empty segment). -/
def splitOnComma : Str → List Str
  | [] => [[]]
  | c :: rest =>
    if c = ',' then [] :: splitOnComma rest
    else
      match splitOnComma rest with
      | [] => [[c]]
      | p :: ps => (c :: p) :: ps

/-- Accumulator-passing core of `readLines`: `acc` holds the (reversed)
characters of the line read so far. -/
def readLinesAux : Str → Str → List Str
  | acc, [] => if acc = [] then [] else [acc.reverse]
  | acc, c :: rest =>
    if c = '\n' then (acc.reverse ++ ['\n']) :: readLinesAux [] rest
    else readLinesAux (c :: acc) rest

/-- The successive buffers produced by `BufRead::read_line` until it
returns 0: each line keeps its terminating `'\n'`; the final line may lack
one; no empty final line is produced. -/
def readLines (s : Str) : List Str :=
  readLinesAux [] s

/-- One iteration of the `while` loop of `search_lines` (lines 125-137 of
`kv/src/lib.rs`) on the line just read: split the line on every comma,
take the first segment as the candidate key; on a key match take the
second segment (erroring with `line_error` if it does not exist), trim it,
and decode it, overwriting the running `value`; on a mismatch keep
`value`. -/
def processLine (c : Codec T) (key : Str) (n : Nat) (line : Str)
    (value : Option T) : Except Error (Option T) :=
  match splitOnComma line with
  | [] => .error (.read (lineErrorMsg n line))
  | kc :: rest =>
    if kc = key then
      match rest with
      | [] => .error (.read (lineErrorMsg n line))
      | p :: _ =>
        match c.dec (trim p) with
        | .error m => .error (.read m)
        | .ok x => .ok x
    else .ok value

/-- The loop of `search_lines` over the remaining lines, threading the
line number and the running `value`; an error aborts the scan. -/
def searchGo (c : Codec T) (key : Str) :
    List Str → Nat → Option T → Except Error (Option T)
  | [], _, v => .ok v
  | l :: ls, n, v =>
    match processLine c key n l v with
    | .error e => .error e
    | .ok v' => searchGo c key ls (n + 1) v'

/-- `search_lines(reader, key)` of `kv/src/lib.rs` (lines 112-141): scan
the whole stream line by line starting from `value = None` and line
number 0, returning the last decoded value for `key`. -/
def searchLines (c : Codec T) (s : Str) (key : Str) : Except Error (Option T) :=
  searchGo c key (readLines s) 0 none

/-- The bytes appended by `writeln!(storage, "{key},{data}")`. -/
def record (k e : Str) : Str :=
  k ++ [','] ++ e ++ ['\n']

/-- `enum Storage`: a file opened in read+append mode (contents plus the
current cursor position) or an in-memory byte buffer. -/
inductive Storage where
  | file : Str → Nat → Storage
  | memory : Str → Storage

/-- The bytes currently held by the backing storage. -/
def Storage.contents : Storage → Str
  | .file s _ => s
  | .memory s => s

/-- `io::Write::write` on `Storage`: both variants append at the end; an
append-mode file write leaves the cursor at end-of-file, a `Vec<u8>` write
simply extends the buffer. -/
def Storage.append (st : Storage) (d : Str) : Storage :=
  match st with
  | .file s _ => .file (s ++ d) (s ++ d).length
  | .memory s => .memory (s ++ d)

/-- `Store::in_memory()`: a store over an empty buffer. -/
def Store.inMemory : Storage :=
  .memory []

/-- `Store::set(key, data)` (lines 87-91): encode `Some(data)`; on an
encoding failure return the `Write` error with the storage untouched,
otherwise append `"{key},{data}\n"`. -/
def Store.set (c : Codec T) (st : Storage) (k : Str) (v : T) :
    Storage × Option Error :=
  match c.enc (some v) with
  | .error m => (st, some (.write m))
  | .ok e => (st.append (record k e), none)

/-- `Store::unset(key)` (lines 93-97): encode `None` and append the
tombstone record, with the same error handling as `set`. -/
def Store.unset (c : Codec T) (st : Storage) (k : Str) :
    Storage × Option Error :=
  match c.enc none with
  | .error m => (st, some (.write m))
  | .ok e => (st.append (record k e), none)

/-- `Store::get(key)` (lines 99-109): for a file, `rewind` to offset zero
and scan (the cursor ends at end-of-file); for a memory buffer, scan a
fresh slice view. -/
def Store.get (c : Codec T) (st : Storage) (k : Str) :
    Except Error (Option T) × Storage :=
  match st with
  | .file s _ => (searchLines c s k, .file s s.length)
  | .memory s => (searchLines c s k, .memory s)

/-- One `set`/`unset` call, as issued by a caller. -/
inductive Op (T : Type) where
  | set : Str → T → Op T
  | unset : Str → Op T

/-- Apply one operation to a backing storage (discarding the returned
`Result`, which does not touch the storage on failure). -/
def Storage.runOp (c : Codec T) (st : Storage) : Op T → Storage
  | .set k v => (Store.set c st k v).1
  | .unset k => (Store.unset c st k).1

/-- Apply a sequence of operations in order. -/
def Storage.runOps (c : Codec T) (st : Storage) (ops : List (Op T)) : Storage :=
  ops.foldl (Storage.runOp c) st

/-- Digits to the natural number they denote. -/
def digitsToNat (s : Str) : Nat :=
  s.foldl (fun a c => a * 10 + (c.toNat - 48)) 0

/-- serde_json encoding of `Option<u8>`-like values: `None` is `null`,
`Some n` is the decimal literal. -/
def encNat : Option Nat → Except Str Str
  | none => .ok "null".data
  | some n => .ok (natToStr n)

/-- serde_json decoding of `Option<u8>`-like values: `null` decodes to
`None`, a nonempty digit string decodes to `Some`, anything else is a
decode error. -/
def decNat (s : Str) : Except Str (Option Nat) :=
  if s = "null".data then .ok none
  else if s ≠ [] ∧ s.all Char.isDigit then .ok (some (digitsToNat s))
  else .error "invalid JSON value".data

/-- The serde_json codec for a `Store<u8>`-like instantiation (the one the
repository's own tests use). -/
def codecNat : Codec Nat :=
  ⟨encNat, decNat⟩

/-- Comma-join a list of strings (the element list of a JSON array). -/
def joinComma : List Str → Str
  | [] => []
  | [x] => x
  | x :: xs => x ++ [','] ++ joinComma xs

/-- serde_json encoding of `Option<Vec<u8>>`-like values: `None` is
`null`, `Some l` is the bracketed comma-separated list. -/
def encListNat : Option (List Nat) → Except Str Str
  | none => .ok "null".data
  | some l => .ok ('[' :: joinComma (l.map natToStr) ++ [']'])

/-- State machine for the interior of a JSON array of naturals, consuming
one character per step: `cur` is the number being read (if a digit has
been seen), `acc` the completed elements.  Fails at end of input before
the closing bracket, exactly as serde_json does. -/
def parseElems : Str → Option Nat → List Nat → Option (List Nat)
  | [], _, _ => none
  | c :: rest, cur, acc =>
    if c.isDigit then
      parseElems rest (some ((cur.getD 0) * 10 + (c.toNat - 48))) acc
    else if c = ',' then
      match cur with
      | none => none
      | some n => parseElems rest none (acc ++ [n])
    else if c = ']' then
      match cur, rest with
      | some n, [] => some (acc ++ [n])
      | _, _ => none
    else none

/-- serde_json decoding of `Option<Vec<u8>>`-like values. -/
def decListNat (s : Str) : Except Str (Option (List Nat)) :=
  if s = "null".data then .ok none
  else
    match s with
    | '[' :: ']' :: [] => .ok (some [])
    | '[' :: rest =>
      match parseElems rest none [] with
      | some l => .ok (some l)
      | none => .error "invalid JSON array".data
    | _ => .error "invalid JSON value".data

/-- The serde_json codec for a `Store<Vec<u8>>`-like instantiation, whose
encoded payloads legitimately contain the field delimiter. -/
def codecListNat : Codec (List Nat) :=
  ⟨encListNat, decListNat⟩

/-- The serde_json codec for a value type whose `Serialize` implementation
always fails (as serde_json's `to_string` does, e.g., on a map with
non-string keys): every encode attempt returns the serializer's error. -/
def codecFailing : Codec Unit :=
  ⟨fun _ => .error "key must be a string".data,
   fun _ => .error "key must be a string".data⟩

deriving instance DecidableEq for Except

/-! ### Structural lemmas about the scanner's parsing primitives -/

theorem splitOnComma_ne_nil (s : Str) : splitOnComma s ≠ [] := by
  induction s with
  | nil => simp [splitOnComma]
  | cons c rest ih =>
    simp only [splitOnComma]
    split
    · simp
    · split <;> simp

theorem splitOnComma_head_no_comma (s : Str) : ',' ∉ (splitOnComma s).headD [] := by
  induction s with
  | nil => simp [splitOnComma]
  | cons c rest ih =>
    simp only [splitOnComma]
    split
    · simp
    · rename_i hc
      split
      · simpa using Ne.symm hc
      · rename_i p ps hps
        rw [hps] at ih
        simp only [List.headD_cons] at ih ⊢
        intro hmem
        rcases List.mem_cons.1 hmem with h | h
        · exact hc h.symm
        · exact ih h

theorem splitOnComma_append (k r : Str) (hk : ',' ∉ k) :
    splitOnComma (k ++ ',' :: r) = k :: splitOnComma r := by
  induction k with
  | nil => simp [splitOnComma]
  | cons c k ih =>
    have hc : ¬(c = ',') := fun h => hk (h ▸ List.mem_cons_self c k)
    have hk' : ',' ∉ k := fun h => hk (List.mem_cons_of_mem c h)
    simp only [List.cons_append, splitOnComma, if_neg hc, List.append_eq]
    rw [ih hk']

theorem splitOnComma_eq_self (s : Str) (h : ',' ∉ s) : splitOnComma s = [s] := by
  induction s with
  | nil => rfl
  | cons c rest ih =>
    have hc : ¬(c = ',') := fun hc => h (hc ▸ List.mem_cons_self c rest)
    have h' : ',' ∉ rest := fun hm => h (List.mem_cons_of_mem c hm)
    simp only [splitOnComma, if_neg hc, ih h']

theorem readLinesAux_line (l : Str) (hl : '\n' ∉ l) :
    ∀ (acc rest : Str),
      readLinesAux acc (l ++ '\n' :: rest) =
        (acc.reverse ++ (l ++ ['\n'])) :: readLinesAux [] rest := by
  induction l with
  | nil => intro acc rest; simp [readLinesAux]
  | cons c l ih =>
    intro acc rest
    have hc : ¬(c = '\n') := fun h => hl (h ▸ List.mem_cons_self c l)
    have hl' : '\n' ∉ l := fun h => hl (List.mem_cons_of_mem c h)
    have hstep : readLinesAux acc (c :: (l ++ '\n' :: rest)) =
        readLinesAux (c :: acc) (l ++ '\n' :: rest) := by
      simp only [readLinesAux, if_neg hc]
    rw [List.cons_append, hstep, ih hl' (c :: acc) rest]
    simp

theorem readLines_line (l rest : Str) (hl : '\n' ∉ l) :
    readLines (l ++ '\n' :: rest) = (l ++ ['\n']) :: readLines rest := by
  simpa [readLines] using readLinesAux_line l hl [] rest

theorem trim_append_newline (s : Str) : trim (s ++ ['\n']) = trim s := by
  unfold trim trimRight
  rw [List.reverse_append]
  simp [List.dropWhile, isWs]

/-! ### Behaviour of one loop iteration of `search_lines` -/

theorem processLine_first_two (c : Codec T) (key p : Str) (n : Nat) (v : Option T)
    (hk : ',' ∉ key) :
    processLine c key n (key ++ ',' :: p) v =
      Except.mapError Error.read (c.dec (trim ((splitOnComma p).headD []))) := by
  unfold processLine
  rw [splitOnComma_append key p hk]
  rcases hsp : splitOnComma p with _ | ⟨p₀, ps⟩
  · exact absurd hsp (splitOnComma_ne_nil p)
  · simp only [List.headD_cons, if_pos rfl]
    rcases c.dec (trim p₀) with m | x <;> rfl

theorem processLine_record (c : Codec T) (k e : Str) (n : Nat) (v : Option T)
    (hk : ',' ∉ k) (he : ',' ∉ e) :
    processLine c k n (k ++ ',' :: (e ++ ['\n'])) v =
      Except.mapError Error.read (c.dec (trim e)) := by
  rw [processLine_first_two c k (e ++ ['\n']) n v hk]
  have he' : ',' ∉ e ++ ['\n'] := by
    intro h
    rcases List.mem_append.1 h with h | h
    · exact he h
    · simp at h
  rw [splitOnComma_eq_self _ he']
  simp [trim_append_newline]

theorem processLine_skip (c : Codec T) (key l : Str) (n : Nat) (v : Option T)
    (h : (splitOnComma l).headD [] ≠ key) :
    processLine c key n l v = .ok v := by
  unfold processLine
  rcases hsp : splitOnComma l with _ | ⟨kc, rest⟩
  · exact absurd hsp (splitOnComma_ne_nil l)
  · rw [hsp] at h
    simp only [List.headD_cons] at h
    simp only [if_neg h]

theorem searchGo_nil (c : Codec T) (key : Str) (n : Nat) (v : Option T) :
    searchGo c key [] n v = .ok v := rfl

theorem searchGo_cons (c : Codec T) (key l : Str) (ls : List Str) (n : Nat)
    (v : Option T) :
    searchGo c key (l :: ls) n v =
      match processLine c key n l v with
      | .error e => .error e
      | .ok v' => searchGo c key ls (n + 1) v' := rfl

theorem searchGo_skip_all (c : Codec T) (key : Str) (hk : ',' ∈ key) :
    ∀ (ls : List Str) (n : Nat) (v : Option T), searchGo c key ls n v = .ok v := by
  intro ls
  induction ls with
  | nil => intro n v; rfl
  | cons l ls ih =>
    intro n v
    have hne : (splitOnComma l).headD [] ≠ key := by
      intro h
      exact splitOnComma_head_no_comma l (h ▸ hk)
    rw [searchGo, processLine_skip c key l n v hne]
    exact ih (n + 1) v

/-! ### Scans of logs made of well-formed records -/

theorem readLines_record (k e : Str) (rest : Str) (hk : '\n' ∉ k) (he : '\n' ∉ e) :
    readLines (record k e ++ rest) = (k ++ ',' :: (e ++ ['\n'])) :: readLines rest := by
  have hline : '\n' ∉ k ++ ',' :: e := by
    intro h
    rcases List.mem_append.1 h with h | h
    · exact hk h
    · rcases List.mem_cons.1 h with h | h
      · simp at h
      · exact he h
  have hshape : record k e ++ rest = (k ++ ',' :: e) ++ '\n' :: rest := by
    simp [record]
  rw [hshape, readLines_line _ rest hline]
  simp

theorem searchLines_single (c : Codec T) (k e : Str)
    (hk₁ : ',' ∉ k) (hk₂ : '\n' ∉ k) (he₁ : ',' ∉ e) (he₂ : '\n' ∉ e) :
    searchLines c (record k e) k = Except.mapError Error.read (c.dec (trim e)) := by
  unfold searchLines
  rw [show record k e = record k e ++ [] from by simp, readLines_record k e [] hk₂ he₂]
  rw [searchGo_cons, processLine_record c k e 0 none hk₁ he₁]
  rcases c.dec (trim e) with m | x <;> rfl

theorem searchLines_double (c : Codec T) (k e₁ e₂ : Str) (x : Option T)
    (hk₁ : ',' ∉ k) (hk₂ : '\n' ∉ k)
    (h₁c : ',' ∉ e₁) (h₁n : '\n' ∉ e₁) (h₁d : c.dec (trim e₁) = .ok x)
    (h₂c : ',' ∉ e₂) (h₂n : '\n' ∉ e₂) :
    searchLines c (record k e₁ ++ record k e₂) k =
      Except.mapError Error.read (c.dec (trim e₂)) := by
  unfold searchLines
  rw [readLines_record k e₁ (record k e₂) hk₂ h₁n,
      show record k e₂ = record k e₂ ++ [] from by simp,
      readLines_record k e₂ [] hk₂ h₂n]
  rw [searchGo_cons, processLine_record c k e₁ 0 none hk₁ h₁c, h₁d]
  show searchGo c k ((k ++ ',' :: (e₂ ++ ['\n'])) :: readLines []) (0 + 1) x =
    Except.mapError Error.read (c.dec (trim e₂))
  rw [searchGo_cons, processLine_record c k e₂ (0 + 1) x hk₁ h₂c]
  rcases c.dec (trim e₂) with m | y <;> rfl

theorem storage_append_contents (st : Storage) (d : Str) :
    (st.append d).contents = st.contents ++ d := by
  cases st <;> rfl

theorem store_get_fst (c : Codec T) (st : Storage) (k : Str) :
    (Store.get c st k).1 = searchLines c st.contents k := by
  cases st <;> rfl

theorem runOp_contents (c : Codec T) (op : Op T) (st₁ st₂ : Storage)
    (h : st₁.contents = st₂.contents) :
    (Storage.runOp c st₁ op).contents = (Storage.runOp c st₂ op).contents := by
  cases op with
  | set k v =>
    unfold Storage.runOp Store.set
    rcases henc : c.enc (some v) with m | e <;>
      simp [henc, storage_append_contents, h]
  | unset k =>
    unfold Storage.runOp Store.unset
    rcases henc : c.enc none with m | e <;>
      simp [henc, storage_append_contents, h]

theorem runOps_contents (c : Codec T) (ops : List (Op T)) :
    ∀ st₁ st₂ : Storage, st₁.contents = st₂.contents →
      (Storage.runOps c st₁ ops).contents = (Storage.runOps c st₂ ops).contents := by
  induction ops with
  | nil => intro _ _ h; exact h
  | cons op ops ih =>
    intro st₁ st₂ h
    exact ih _ _ (runOp_contents c op st₁ st₂ h)

/-! ### The claims -/

/-- C1 counterexample: with the `Store<Vec<u8>>`-like codec, `set("k", [1,2])`
followed by `get("k")` does not return `Some([1,2])` — the scanner hands the
decoder only `"[1"`, the text between the first and second comma, so the
lookup fails with a decode error instead. -/
theorem set_then_get_comma_payload_cex :
    (Store.get codecListNat
        (Store.set codecListNat Store.inMemory "k".data [1, 2]).1 "k".data).1 ≠
      .ok (some [1, 2]) := by decide

/-- C1 (amended): for every key `k` containing neither the field delimiter
nor a line terminator and every value `v` whose encoded form contains no
delimiter and no line terminator (and is untouched by trimming, with decode
inverting encode — all true of serde_json output without a comma),
`set(k, v)` then `get(k)` on a fresh store returns `Some(v)`. -/
theorem set_then_get_amended (c : Codec T) (k : Str) (v : T) (e : Str)
    (hk₁ : ',' ∉ k) (hk₂ : '\n' ∉ k)
    (henc : c.enc (some v) = .ok e) (he₁ : ',' ∉ e) (he₂ : '\n' ∉ e)
    (hdec : c.dec (trim e) = .ok (some v)) :
    (Store.get c (Store.set c Store.inMemory k v).1 k).1 = .ok (some v) := by
  have hst : (Store.set c Store.inMemory k v).1 = Storage.memory (record k e) := by
    simp [Store.set, henc, Store.inMemory, Storage.append]
  rw [hst, store_get_fst]
  show searchLines c (record k e) k = .ok (some v)
  rw [searchLines_single c k e hk₁ hk₂ he₁ he₂, hdec]
  rfl

/-- C1 witness: instantiating the amended set-then-get at the
`Store<u8>`-like codec with key `"k"` and value `3`. -/
theorem set_then_get_amended_w :
    (Store.get codecNat (Store.set codecNat Store.inMemory "k".data 3).1 "k".data).1 =
      .ok (some 3) :=
  set_then_get_amended codecNat "k".data 3 "3".data (by decide) (by decide)
    (by decide) (by decide) (by decide) (by decide)

/-- C2 counterexample: the payload text `"[1,2]"` decodes in full on its own,
yet scanning the record line `"k,[1,2]\n"` for `"k"` fails with a decode
error — the decoder received only the text truncated at the second comma,
not the entire remainder of the line after the first delimiter. -/
theorem first_split_cex :
    codecListNat.dec "[1,2]".data = .ok (some [1, 2]) ∧
    searchLines codecListNat "k,[1,2]\n".data "k".data =
      .error (.read "invalid JSON array".data) :=
  ⟨by decide, by decide⟩

/-- C2 (amended): the scanner splits each line at every occurrence of the
delimiter; the text handed to the decoder is only the segment between the
first and the second occurrence (trimmed) — the head of the comma-split of
the line's remainder — so an encoded payload containing the delimiter is
truncated at the next delimiter rather than decoded in full. -/
theorem split_truncates (c : Codec T) (k p : Str)
    (hk₁ : ',' ∉ k) (hk₂ : '\n' ∉ k) (hp : '\n' ∉ p) :
    searchLines c (k ++ [','] ++ p ++ ['\n']) k =
      Except.mapError Error.read
        (c.dec (trim ((splitOnComma (p ++ ['\n'])).headD []))) := by
  unfold searchLines
  have hline : '\n' ∉ k ++ ',' :: p := by
    intro h
    rcases List.mem_append.1 h with h | h
    · exact hk₂ h
    · rcases List.mem_cons.1 h with h | h
      · simp at h
      · exact hp h
  rw [show k ++ [','] ++ p ++ ['\n'] = (k ++ ',' :: p) ++ '\n' :: ([] : Str) from
        by simp]
  rw [readLines_line _ _ hline]
  rw [searchGo_cons]
  rw [show (k ++ ',' :: p) ++ ['\n'] = k ++ ',' :: (p ++ ['\n']) from by simp]
  rw [processLine_first_two c k (p ++ ['\n']) 0 none hk₁]
  rcases c.dec (trim ((splitOnComma (p ++ ['\n'])).headD [])) with m | y <;> rfl

/-- C2 witness: for the record line `"k,[1,2]\n"`, the scan result is exactly
the decode of the truncated segment. -/
theorem split_truncates_w :
    searchLines codecListNat ("k".data ++ [','] ++ "[1,2]".data ++ ['\n']) "k".data =
      Except.mapError Error.read
        (codecListNat.dec (trim ((splitOnComma ("[1,2]".data ++ ['\n'])).headD []))) :=
  split_truncates codecListNat "k".data "[1,2]".data (by decide) (by decide) (by decide)

/-- C3: on the literal log `"key1,1\nkey2"`, `get("not a key")` returns
`Ok(None)` while `get("key2")` fails with the scanner's read error for
line 1; and in general a loop iteration can only return an error when the
line's candidate key (the first comma-split segment) equals the queried
key. -/
theorem lazy_validation :
    searchLines codecNat "key1,1\nkey2".data "not a key".data = .ok none ∧
    searchLines codecNat "key1,1\nkey2".data "key2".data =
      .error (.read (lineErrorMsg 1 "key2".data)) ∧
    ∀ (key line : Str) (n : Nat) (v : Option Nat) (e : Error),
      processLine codecNat key n line v = .error e →
      (splitOnComma line).headD [] = key := by
  refine ⟨by decide, by decide, ?_⟩
  intro key line n v e h
  by_contra hne
  rw [processLine_skip codecNat key line n v hne] at h
  exact Except.noConfusion h

/-- C3 witness: the general error clause applied to the concrete malformed
line `"key2"` queried with key `"key2"`. -/
theorem lazy_validation_w :
    (splitOnComma "key2".data).headD [] = "key2".data :=
  lazy_validation.2.2 "key2".data "key2".data 0 none
    (.read (lineErrorMsg 0 "key2".data)) (by decide)

/-- C4 counterexample: with the `Store<Vec<u8>>`-like codec,
`set("k", [1]); set("k", [2,3])` then `get("k")` does not return
`Some([2,3])` — the second record's payload is truncated at its interior
comma and the lookup fails. -/
theorem last_write_wins_cex :
    (Store.get codecListNat
        (Store.set codecListNat
          (Store.set codecListNat Store.inMemory "k".data [1]).1
          "k".data [2, 3]).1 "k".data).1 ≠
      .ok (some [2, 3]) := by decide

/-- C4 (amended): for every delimiter-free, terminator-free key and every
pair of values whose encoded forms are delimiter-free (and terminator-free,
trim-invariant, with decode inverting encode), `set(k,v1); set(k,v2)` then
`get(k)` returns `Some(v2)` — the scanner keeps the last matching record. -/
theorem last_write_wins_amended (c : Codec T) (k : Str) (v₁ v₂ : T) (e₁ e₂ : Str)
    (hk₁ : ',' ∉ k) (hk₂ : '\n' ∉ k)
    (henc₁ : c.enc (some v₁) = .ok e₁) (h₁c : ',' ∉ e₁) (h₁n : '\n' ∉ e₁)
    (hdec₁ : c.dec (trim e₁) = .ok (some v₁))
    (henc₂ : c.enc (some v₂) = .ok e₂) (h₂c : ',' ∉ e₂) (h₂n : '\n' ∉ e₂)
    (hdec₂ : c.dec (trim e₂) = .ok (some v₂)) :
    (Store.get c
        (Store.set c (Store.set c Store.inMemory k v₁).1 k v₂).1 k).1 =
      .ok (some v₂) := by
  have h1 : (Store.set c Store.inMemory k v₁).1 = Storage.memory (record k e₁) := by
    simp [Store.set, henc₁, Store.inMemory, Storage.append]
  have h2 : (Store.set c (Storage.memory (record k e₁)) k v₂).1 =
      Storage.memory (record k e₁ ++ record k e₂) := by
    simp [Store.set, henc₂, Storage.append]
  rw [h1, h2, store_get_fst]
  show searchLines c (record k e₁ ++ record k e₂) k = .ok (some v₂)
  rw [searchLines_double c k e₁ e₂ (some v₁) hk₁ hk₂ h₁c h₁n hdec₁ h₂c h₂n, hdec₂]
  rfl

/-- C4 witness: instantiating the amended last-write-wins at the
`Store<u8>`-like codec with key `"k"` and values `1`, `2`. -/
theorem last_write_wins_amended_w :
    (Store.get codecNat
        (Store.set codecNat (Store.set codecNat Store.inMemory "k".data 1).1
          "k".data 2).1 "k".data).1 =
      .ok (some 2) :=
  last_write_wins_amended codecNat "k".data 1 2 "1".data "2".data
    (by decide) (by decide) (by decide) (by decide) (by decide) (by decide)
    (by decide) (by decide) (by decide) (by decide)

/-- C5 counterexample: with the `Store<Vec<u8>>`-like codec,
`set("k", [1,2]); unset("k")` then `get("k")` does not return `Ok(None)` —
the scan dies on the first record's truncated payload before it ever
reaches the tombstone. -/
theorem tombstone_cex :
    (Store.get codecListNat
        (Store.unset codecListNat
          (Store.set codecListNat Store.inMemory "k".data [1, 2]).1
          "k".data).1 "k".data).1 ≠
      .ok none := by decide

/-- C5 (amended): for every delimiter-free, terminator-free key and every
value whose encoded form is delimiter-free (and terminator-free,
trim-invariant, decodable back), given that the tombstone encoding is also
delimiter-free and decodes to `None` (serde_json's `null` is),
`set(k,v); unset(k)` then `get(k)` returns `Ok(None)`. -/
theorem tombstone_amended (c : Codec T) (k : Str) (v : T) (e et : Str)
    (hk₁ : ',' ∉ k) (hk₂ : '\n' ∉ k)
    (henc : c.enc (some v) = .ok e) (he₁ : ',' ∉ e) (he₂ : '\n' ∉ e)
    (hdec : c.dec (trim e) = .ok (some v))
    (ht : c.enc none = .ok et) (ht₁ : ',' ∉ et) (ht₂ : '\n' ∉ et)
    (htd : c.dec (trim et) = .ok none) :
    (Store.get c (Store.unset c (Store.set c Store.inMemory k v).1 k).1 k).1 =
      .ok none := by
  have h1 : (Store.set c Store.inMemory k v).1 = Storage.memory (record k e) := by
    simp [Store.set, henc, Store.inMemory, Storage.append]
  have h2 : (Store.unset c (Storage.memory (record k e)) k).1 =
      Storage.memory (record k e ++ record k et) := by
    simp [Store.unset, ht, Storage.append]
  rw [h1, h2, store_get_fst]
  show searchLines c (record k e ++ record k et) k = .ok none
  rw [searchLines_double c k e et (some v) hk₁ hk₂ he₁ he₂ hdec ht₁ ht₂, htd]
  rfl

/-- C5 witness: instantiating the amended tombstone property at the
`Store<u8>`-like codec with key `"k"` and value `5`. -/
theorem tombstone_amended_w :
    (Store.get codecNat
        (Store.unset codecNat (Store.set codecNat Store.inMemory "k".data 5).1
          "k".data).1 "k".data).1 =
      .ok none :=
  tombstone_amended codecNat "k".data 5 "5".data "null".data
    (by decide) (by decide) (by decide) (by decide) (by decide) (by decide)
    (by decide) (by decide) (by decide) (by decide)

/-- C6: for every sequence of `set`/`unset` operations applied identically
to a file-backed store and to an in-memory store, every subsequent `get`
returns the same result on both. -/
theorem backend_equivalence (c : Codec T) (ops : List (Op T)) (k : Str) :
    (Store.get c (Storage.runOps c (Storage.file [] 0) ops) k).1 =
    (Store.get c (Storage.runOps c (Storage.memory []) ops) k).1 := by
  rw [store_get_fst, store_get_fst,
      runOps_contents c ops (Storage.file [] 0) (Storage.memory []) rfl]

/-- C7 counterexample: on the log consisting of the single newline-terminated
line `"key2\n"` (the target key alone, no delimiter), `get("key2")` returns
`Ok(None)` — the line is silently skipped, not surfaced as a malformed
record for that key. -/
theorem terminator_strip_cex :
    searchLines codecNat "key2\n".data "key2".data = .ok none := by decide

/-- C7 (amended): the line terminator is not stripped before the split —
only the payload is trimmed afterwards — so the candidate key of a
newline-terminated line with no delimiter is the whole line including its
terminator; it therefore never equals the target key and such a line is
silently skipped, `get` returning `Ok(None)` rather than an error. -/
theorem terminator_not_stripped (c : Codec T) (key : Str)
    (hk₁ : ',' ∉ key) (hk₂ : '\n' ∉ key) :
    (splitOnComma (key ++ ['\n'])).headD [] = key ++ ['\n'] ∧
    searchLines c (key ++ ['\n']) key = .ok none := by
  have hnc : ',' ∉ key ++ ['\n'] := by
    intro h
    rcases List.mem_append.1 h with h | h
    · exact hk₁ h
    · simp at h
  have hsp : splitOnComma (key ++ ['\n']) = [key ++ ['\n']] :=
    splitOnComma_eq_self _ hnc
  have hne : (splitOnComma (key ++ ['\n'])).headD [] ≠ key := by
    rw [hsp]
    simp only [List.headD_cons]
    intro h
    have hlen := congrArg List.length h
    simp at hlen
  refine ⟨by rw [hsp]; rfl, ?_⟩
  unfold searchLines
  rw [readLines_line key [] hk₂]
  rw [searchGo_cons, processLine_skip c key (key ++ ['\n']) 0 none hne]
  rfl

/-- C7 witness: the amended statement at the `Store<u8>`-like codec and the
key `"key2"`. -/
theorem terminator_not_stripped_w :
    (splitOnComma ("key2".data ++ ['\n'])).headD [] = "key2".data ++ ['\n'] ∧
    searchLines codecNat ("key2".data ++ ['\n']) "key2".data = .ok none :=
  terminator_not_stripped codecNat "key2".data (by decide) (by decide)

/-- C8: for every key containing the field delimiter and every value,
`set(k, v)` followed by `get(k)` returns `Ok(None)`: every candidate key the
scanner compares is comma-free, so it can never equal `k`, and no error is
ever surfaced for a non-matching line. -/
theorem comma_key_get_none (c : Codec T) (k : Str) (v : T) (hk : ',' ∈ k) :
    (Store.get c (Store.set c Store.inMemory k v).1 k).1 = .ok none := by
  rw [store_get_fst]
  unfold searchLines
  rw [searchGo_skip_all c k hk]

/-- C8 witness: the comma-bearing key `"a,b"` with value `1` on the
`Store<u8>`-like codec. -/
theorem comma_key_get_none_w :
    (Store.get codecNat
        (Store.set codecNat Store.inMemory "a,b".data 1).1 "a,b".data).1 =
      .ok none :=
  comma_key_get_none codecNat "a,b".data 1 (by decide)

/-- C9: when encoding the value fails, `set` (and likewise `unset` for the
tombstone encoding) returns the `Write` error and leaves the backing
storage completely unchanged — nothing is appended. -/
theorem encode_error_no_append (c : Codec T) (st : Storage) (k : Str) (v : T)
    (m m' : Str) (hs : c.enc (some v) = .error m) (hu : c.enc none = .error m') :
    Store.set c st k v = (st, some (.write m)) ∧
    Store.unset c st k = (st, some (.write m')) := by
  constructor
  · simp [Store.set, hs]
  · simp [Store.unset, hu]

/-- C9 witness: the always-failing serializer on an in-memory store leaves
the store untouched for both `set` and `unset`. -/
theorem encode_error_no_append_w :
    Store.set codecFailing (Storage.memory []) "k".data () =
      ((Storage.memory []), some (.write "key must be a string".data)) ∧
    Store.unset codecFailing (Storage.memory []) "k".data =
      ((Storage.memory []), some (.write "key must be a string".data)) :=
  encode_error_no_append codecFailing (Storage.memory []) "k".data ()
    "key must be a string".data "key must be a string".data rfl rfl

/-- C10: the displayed message of the `Read` error variant is
`"Unable to write record: <detail>"` and that of the `Write` variant is
`"Unable to read record: <detail>"` — each names the opposite operation
from the variant's own name, exactly as the source's `#[error]` attributes
are written. -/
theorem error_display_swapped (m : Str) :
    (Error.read m).display = "Unable to write record: ".data ++ m ∧
    (Error.write m).display = "Unable to read record: ".data ++ m :=
  ⟨rfl, rfl⟩
